import Mathlib

/-!
Verification of the driver-breaks repository: a shallow embedding of
`src/models.ts`, `src/ComplianceChecker.ts` and `src/BreaksComplianceChecker.ts`
(EU Regulation 561/2006, Article 7 break compliance), together with theorems
settling the specification claims about it.

Durations inside schedules are natural numbers of seconds (the data model
documents them as positive integers, and the checker only adds and compares
them).  Constructor arguments, which the TypeScript code receives as arbitrary
JavaScript numbers and validates with `Number.isInteger`, are modelled as
rationals so that the integrality check is meaningful.
-/

namespace DriverBreaks

/-- `TimeSlotType` from `src/models.ts`: the kind of a slot in a daily
schedule.  The TypeScript string union member `'break'` is rendered with
guillemets because `break` is a reserved word in Lean. -/
inductive TimeSlotType where
  | drive
  | wait
  | serviceCustomer
  | otherWork
  | «break»
  | rest
deriving DecidableEq, Repr

/-- `TimeSlot` from `src/models.ts`. -/
structure TimeSlot where
  slotType : TimeSlotType
  durationSeconds : Nat
deriving DecidableEq, Repr

/-- `DailySchedule` from `src/models.ts`. -/
structure DailySchedule where
  day : String
  slotsSequence : List TimeSlot
deriving DecidableEq, Repr

/-- `HorizonSchedule` from `src/models.ts`: a sequence of daily schedules. -/
abbrev HorizonSchedule := List DailySchedule

/-- `ArticleNumber` from `src/models.ts`, as plain data; validated
construction is `mkArticleNumber` below. -/
structure ArticleNumber where
  value : Int
deriving DecidableEq, Repr

/-- The `ArticleNumber` constructor from `src/models.ts` (lines 51-58):
it throws exactly when `value <= 0 || value > 29`. -/
def mkArticleNumber (value : Int) : Except String ArticleNumber :=
  if value ≤ 0 ∨ value > 29 then
    .error ("Invalid article number, expected a value in [1, 29], got " ++ toString value)
  else
    .ok { value := value }

/-- `Infringement` from `src/models.ts`. -/
structure Infringement where
  articleNumber : ArticleNumber
  brokenRule : String
  day : String
  offendingSlotIndex : Nat
deriving DecidableEq, Repr

/-- The configuration part of class `BreaksComplianceChecker`
(`src/BreaksComplianceChecker.ts`): the three readonly constructor-injected
durations.  The mutable `state` field is modelled explicitly where it matters
(see `checkM`). -/
structure BreaksComplianceChecker where
  maxDrivingDurationSec : Nat
  singleBreakDurationSec : Nat
  splitBreakDurations : Nat × Nat
deriving DecidableEq, Repr

/-- `CheckerState` from `src/BreaksComplianceChecker.ts` (lines 156-162). -/
structure CheckerState where
  infringements : List Infringement := []
  drivingTime : Nat := 0
  takingSplitBreak : Bool := false
  infringementReported : Bool := false
deriving DecidableEq, Repr

/-- A fresh `new CheckerState()`. -/
def CheckerState.init : CheckerState := {}

/-- `getArticle` from `src/BreaksComplianceChecker.ts` (lines 54-56):
`new ArticleNumber(7)` (which passes its range validation). -/
def getArticle : ArticleNumber := { value := 7 }

/-- `isLastSlot` from `src/BreaksComplianceChecker.ts` (lines 145-147):
`slotIndex === schedule.slotsSequence.length - 1`. -/
def isLastSlot (schedule : DailySchedule) (slotIndex : Nat) : Bool :=
  slotIndex == schedule.slotsSequence.length - 1

/-- The look-ahead `schedule.slotsSequence[i + 1].slotType !== 'rest'` used in
the `drive` case, made total: `true` when slot `i + 1` exists and is a rest
slot.  In the TypeScript source the access is guarded by `!isLastSlot`, which
inside the scan loop guarantees the index is in bounds (proved by
`checkDailyComplianceE_ok`). -/
def nextSlotIsRest (schedule : DailySchedule) (i : Nat) : Bool :=
  match schedule.slotsSequence[i + 1]? with
  | some s => s.slotType == TimeSlotType.rest
  | none => false

/-- One iteration of the scan loop in `checkDailyCompliance`
(`src/BreaksComplianceChecker.ts` lines 76-140): the effect of the slot at
index `i` on the checker state.  An index with no slot (never reached by the
loop) leaves the state unchanged. -/
def stepSlot (chk : BreaksComplianceChecker) (schedule : DailySchedule) (i : Nat)
    (st : CheckerState) : CheckerState :=
  match schedule.slotsSequence[i]? with
  | none => st
  | some currentSlot =>
    let curSlotDurationSec := currentSlot.durationSeconds
    match currentSlot.slotType with
    | .drive =>
      let st := { st with drivingTime := st.drivingTime + curSlotDurationSec }
      if st.drivingTime > chk.maxDrivingDurationSec ∧ st.infringementReported = false ∧
          (isLastSlot schedule i = false ∧ nextSlotIsRest schedule i = false) then
        { st with
          infringements := st.infringements ++
            [{ articleNumber := getArticle
               day := schedule.day
               brokenRule := "Driver did not take a break: drive time without a break " ++
                 toString st.drivingTime
               offendingSlotIndex := i }]
          infringementReported := true }
      else
        st
    | .rest =>
      { st with drivingTime := 0, infringementReported := false, takingSplitBreak := false }
    | .«break» =>
      if curSlotDurationSec ≥ chk.singleBreakDurationSec then
        { st with drivingTime := 0, infringementReported := false, takingSplitBreak := false }
      else
        if st.takingSplitBreak = false then
          if curSlotDurationSec ≥ chk.splitBreakDurations.1 then
            { st with takingSplitBreak := true }
          else
            { st with
              infringements := st.infringements ++
                [{ articleNumber := getArticle
                   day := schedule.day
                   brokenRule := "Driver took an insufficient split break: 1st break duration " ++
                     toString curSlotDurationSec
                   offendingSlotIndex := i }] }
        else
          if curSlotDurationSec ≥ chk.splitBreakDurations.2 then
            { st with drivingTime := 0, takingSplitBreak := false, infringementReported := false }
          else
            { st with
              infringements := st.infringements ++
                [{ articleNumber := getArticle
                   day := schedule.day
                   brokenRule := "Driver took an insufficient split break: 2nd break duration " ++
                     toString curSlotDurationSec
                   offendingSlotIndex := i }]
              drivingTime := 0
              takingSplitBreak := false
              infringementReported := false }
    | .wait => st
    | .serviceCustomer => st
    | .otherWork => st

/-- The scan loop `for (let i = 0; i < schedule.slotsSequence.length; i++)`
of `checkDailyCompliance`, with the number of remaining iterations made
explicit for structural recursion: `checkDailyLoop chk s n i st` runs the
body for indices `i, i+1, ..., i+n-1`. -/
def checkDailyLoop (chk : BreaksComplianceChecker) (schedule : DailySchedule) :
    Nat → Nat → CheckerState → CheckerState
  | 0, _, st => st
  | n + 1, i, st => checkDailyLoop chk schedule n (i + 1) (stepSlot chk schedule i st)

/-- `checkDailyCompliance` from `src/BreaksComplianceChecker.ts` (lines
72-143): reset the state (line 74), scan every slot, return the collected
infringements. -/
def checkDailyCompliance (chk : BreaksComplianceChecker) (schedule : DailySchedule) :
    List Infringement :=
  (checkDailyLoop chk schedule schedule.slotsSequence.length 0 CheckerState.init).infringements

/-- `check` from `src/BreaksComplianceChecker.ts` (lines 62-70): concatenate
the per-day infringements in schedule order. -/
def check (chk : BreaksComplianceChecker) (schedule : HorizonSchedule) : List Infringement :=
  schedule.foldl (fun infringements ds => infringements ++ checkDailyCompliance chk ds) []

/-! ### Defensive variant

The same scan, but every slot access can fail: `stepSlotE` errors when the
loop body would read an index that does not exist, mirroring the JavaScript
semantics where `schedule.slotsSequence[i + 1].slotType` would throw on
`undefined`.  The look-ahead is attempted exactly under the short-circuit
structure of the source condition (line 85-86).  Proving this variant equal to
`.ok` of the total one shows the scan never reads out of bounds. -/

/-- Defensive version of `stepSlot`: out-of-bounds reads are errors. -/
def stepSlotE (chk : BreaksComplianceChecker) (schedule : DailySchedule) (i : Nat)
    (st : CheckerState) : Except String CheckerState :=
  match schedule.slotsSequence[i]? with
  | none => .error ("current slot index out of bounds")
  | some currentSlot =>
    let curSlotDurationSec := currentSlot.durationSeconds
    match currentSlot.slotType with
    | .drive =>
      let st := { st with drivingTime := st.drivingTime + curSlotDurationSec }
      if st.drivingTime > chk.maxDrivingDurationSec ∧ st.infringementReported = false ∧
          isLastSlot schedule i = false then
        match schedule.slotsSequence[i + 1]? with
        | none => .error ("look-ahead slot index out of bounds")
        | some nextSlot =>
          if nextSlot.slotType ≠ .rest then
            .ok { st with
                  infringements := st.infringements ++
                    [{ articleNumber := getArticle
                       day := schedule.day
                       brokenRule := "Driver did not take a break: drive time without a break " ++
                         toString st.drivingTime
                       offendingSlotIndex := i }]
                  infringementReported := true }
          else
            .ok st
      else
        .ok st
    | _ => .ok (stepSlot chk schedule i st)

/-- Defensive version of the scan loop. -/
def checkDailyLoopE (chk : BreaksComplianceChecker) (schedule : DailySchedule) :
    Nat → Nat → CheckerState → Except String CheckerState
  | 0, _, st => .ok st
  | n + 1, i, st =>
    match stepSlotE chk schedule i st with
    | .error e => .error e
    | .ok st' => checkDailyLoopE chk schedule n (i + 1) st'

/-- Defensive version of `checkDailyCompliance`. -/
def checkDailyComplianceE (chk : BreaksComplianceChecker) (schedule : DailySchedule) :
    Except String (List Infringement) :=
  (checkDailyLoopE chk schedule schedule.slotsSequence.length 0 CheckerState.init).map
    (fun st => st.infringements)

/-- Defensive version of `check`. -/
def checkE (chk : BreaksComplianceChecker) (schedule : HorizonSchedule) :
    Except String (List Infringement) :=
  schedule.foldl
    (fun acc ds =>
      match acc with
      | .error e => .error e
      | .ok infringements => (checkDailyComplianceE chk ds).map (fun l => infringements ++ l))
    (.ok [])

/-! ### Stateful model

The TypeScript class keeps a mutable `state` field; `checkDailyCompliance`
overwrites it with `new CheckerState()` on entry (line 74) and `check` calls
the method once per day.  `checkM` threads that field explicitly, so purity
of `check` across repeated calls on a shared instance can be stated. -/

/-- The method `checkDailyCompliance` seen as a state transformer on the
instance field `state`: the incoming field value is discarded by the reset on
line 74.  Returns the infringement list together with the field value the
method leaves behind. -/
def checkDailyComplianceM (chk : BreaksComplianceChecker) (_state : CheckerState)
    (schedule : DailySchedule) : List Infringement × CheckerState :=
  let finalState := checkDailyLoop chk schedule schedule.slotsSequence.length 0 CheckerState.init
  (finalState.infringements, finalState)

/-- The loop of `check` threading the mutable `state` field. -/
def checkMGo (chk : BreaksComplianceChecker) :
    HorizonSchedule → List Infringement × CheckerState → List Infringement × CheckerState
  | [], acc => acc
  | ds :: rest, (infringements, state) =>
    let r := checkDailyComplianceM chk state ds
    checkMGo chk rest (infringements ++ r.1, r.2)

/-- `check` on an instance whose `state` field currently holds `state`:
returns the result together with the field value after the call. -/
def checkM (chk : BreaksComplianceChecker) (state : CheckerState)
    (schedule : HorizonSchedule) : List Infringement × CheckerState :=
  checkMGo chk schedule ([], state)

/-! ### Validated construction

The constructor receives arbitrary JavaScript numbers; they are modelled as
rationals so that the `Number.isInteger` check (integrality of the value) is
faithful.  A rational is an integer exactly when its reduced denominator
is 1. -/

/-- `isValidDuration` from `src/BreaksComplianceChecker.ts` (lines 38-48):
throws unless the duration is an integer in `(0, 10 * 3600]`. -/
def isValidDuration (durationSec : ℚ) : Except String Unit :=
  if ¬ durationSec.den = 1 then
    .error ("Duration must be an integer number of seconds, got " ++ toString durationSec)
  else if durationSec ≤ 0 ∨ durationSec > 10 * 3600 then
    .error ("durection must be in (0, 36000], got " ++ toString durationSec)
  else
    .ok ()

/-- The `BreaksComplianceChecker` constructor (lines 16-36): validate each
duration, then the split-sum equation, then the ordering of the split parts;
on success produce the configured checker. -/
def mkBreaksComplianceChecker (maxDrivingDurationSec singleBreakDurationSec : ℚ)
    (splitBreakDurations : ℚ × ℚ) : Except String BreaksComplianceChecker :=
  match isValidDuration maxDrivingDurationSec with
  | .error e => .error e
  | .ok _ =>
  match isValidDuration singleBreakDurationSec with
  | .error e => .error e
  | .ok _ =>
  match isValidDuration splitBreakDurations.1 with
  | .error e => .error e
  | .ok _ =>
  match isValidDuration splitBreakDurations.2 with
  | .error e => .error e
  | .ok _ =>
  if singleBreakDurationSec ≠ splitBreakDurations.1 + splitBreakDurations.2 then
    .error ("Single break duration must be equal to the sum of split break durations")
  else if splitBreakDurations.1 > splitBreakDurations.2 then
    .error ("First part of a split break must be shorter than the second part")
  else
    .ok { maxDrivingDurationSec := maxDrivingDurationSec.num.toNat
          singleBreakDurationSec := singleBreakDurationSec.num.toNat
          splitBreakDurations :=
            (splitBreakDurations.1.num.toNat, splitBreakDurations.2.num.toNat) }

/-! ### Scan-loop invariants -/

/-- Invariant rule for the scan loop: a predicate indexed by the loop counter
that every `stepSlot` preserves is preserved by the whole loop. -/
theorem checkDailyLoop_inv (chk : BreaksComplianceChecker) (schedule : DailySchedule)
    (Q : Nat → CheckerState → Prop)
    (hstep : ∀ i st, Q i st → Q (i + 1) (stepSlot chk schedule i st)) :
    ∀ n i st, Q i st → Q (i + n) (checkDailyLoop chk schedule n i st) := by
  intro n
  induction n with
  | zero => intro i st h; simpa [checkDailyLoop] using h
  | succ n ih =>
    intro i st h
    have h2 := ih (i + 1) (stepSlot chk schedule i st) (hstep i st h)
    have h3 : i + 1 + n = i + (n + 1) := by omega
    rw [h3] at h2
    simpa [checkDailyLoop] using h2

/-- Each loop iteration either leaves the infringement list unchanged or
appends exactly one record whose day is the schedule's label, whose slot
index is the loop counter (which is then in bounds), and whose article is the
checker's article. -/
theorem stepSlot_infringements (chk : BreaksComplianceChecker) (schedule : DailySchedule)
    (i : Nat) (st : CheckerState) :
    (stepSlot chk schedule i st).infringements = st.infringements ∨
    (i < schedule.slotsSequence.length ∧ ∃ rule,
      (stepSlot chk schedule i st).infringements =
        st.infringements ++
          [{ articleNumber := getArticle, brokenRule := rule, day := schedule.day,
             offendingSlotIndex := i }]) := by
  unfold stepSlot
  rcases h : schedule.slotsSequence[i]? with _ | slot
  · simp
  · have hi : i < schedule.slotsSequence.length := (List.getElem?_eq_some.mp h).1
    rcases slot with ⟨ty, d⟩
    cases ty <;> simp only
    case drive =>
      split
      · exact Or.inr ⟨hi, _, rfl⟩
      · exact Or.inl (by trivial)
    case rest => exact Or.inl (by trivial)
    case «break» =>
      split
      · exact Or.inl (by trivial)
      · split
        · split
          · exact Or.inl (by trivial)
          · exact Or.inr ⟨hi, _, rfl⟩
        · split
          · exact Or.inl (by trivial)
          · exact Or.inr ⟨hi, _, rfl⟩
    case wait => exact Or.inl (by trivial)
    case serviceCustomer => exact Or.inl (by trivial)
    case otherWork => exact Or.inl (by trivial)

/-- Every record in a per-day result carries the checker's article, the day's
label, and an in-bounds slot index. -/
theorem checkDailyCompliance_mem (chk : BreaksComplianceChecker) (schedule : DailySchedule)
    (inf : Infringement) (h : inf ∈ checkDailyCompliance chk schedule) :
    inf.articleNumber = getArticle ∧ inf.day = schedule.day ∧
      inf.offendingSlotIndex < schedule.slotsSequence.length := by
  have key := checkDailyLoop_inv chk schedule
    (fun _ st => ∀ x ∈ st.infringements,
      x.articleNumber = getArticle ∧ x.day = schedule.day ∧
        x.offendingSlotIndex < schedule.slotsSequence.length)
    (by
      intro i st hst x hx
      rcases stepSlot_infringements chk schedule i st with heq | ⟨hi, rule, heq⟩
      · rw [heq] at hx; exact hst x hx
      · rw [heq] at hx
        rcases List.mem_append.mp hx with h1 | h2
        · exact hst x h1
        · simp only [List.mem_singleton] at h2
          subst h2
          exact ⟨rfl, rfl, hi⟩)
    schedule.slotsSequence.length 0 CheckerState.init
    (by intro x hx; simp [CheckerState.init] at hx)
  exact key inf h

/-- The per-day result lists offending slot indices in strictly increasing
order. -/
theorem checkDailyCompliance_pairwise (chk : BreaksComplianceChecker)
    (schedule : DailySchedule) :
    (checkDailyCompliance chk schedule).Pairwise
      (fun a b => a.offendingSlotIndex < b.offendingSlotIndex) := by
  have key := checkDailyLoop_inv chk schedule
    (fun i st =>
      st.infringements.Pairwise (fun a b => a.offendingSlotIndex < b.offendingSlotIndex) ∧
      ∀ x ∈ st.infringements, x.offendingSlotIndex < i)
    (by
      intro i st hst
      rcases stepSlot_infringements chk schedule i st with heq | ⟨_, rule, heq⟩
      · rw [heq]
        exact ⟨hst.1, fun x hx => Nat.lt_succ_of_lt (hst.2 x hx)⟩
      · rw [heq]
        constructor
        · rw [List.pairwise_append]
          refine ⟨hst.1, List.pairwise_singleton _ _, ?_⟩
          intro a ha b hb
          simp only [List.mem_singleton] at hb
          subst hb
          exact hst.2 a ha
        · intro x hx
          rcases List.mem_append.mp hx with h1 | h2
          · exact Nat.lt_succ_of_lt (hst.2 x h1)
          · simp only [List.mem_singleton] at h2
            subst h2
            exact Nat.lt_succ_self i)
    schedule.slotsSequence.length 0 CheckerState.init
    (by simp [CheckerState.init])
  exact key.1

/-- Folding list concatenation over days produces the flattened map. -/
theorem foldl_concat_eq_flatten (f : DailySchedule → List Infringement) :
    ∀ (l : List DailySchedule) (acc : List Infringement),
      l.foldl (fun infringements ds => infringements ++ f ds) acc =
        acc ++ (l.map f).flatten := by
  intro l
  induction l with
  | nil => simp
  | cons d rest ih => intro acc; simp [ih, List.append_assoc]

/-- `check` is the concatenation of the per-day results in schedule order. -/
theorem check_eq_flatten_map (chk : BreaksComplianceChecker) (schedule : HorizonSchedule) :
    check chk schedule = (schedule.map (checkDailyCompliance chk)).flatten := by
  simpa using foldl_concat_eq_flatten (checkDailyCompliance chk) schedule []

/-- Membership in a `check` result comes from one of the days. -/
theorem check_mem (chk : BreaksComplianceChecker) (schedule : HorizonSchedule)
    (inf : Infringement) (h : inf ∈ check chk schedule) :
    ∃ ds ∈ schedule, inf ∈ checkDailyCompliance chk ds := by
  rw [check_eq_flatten_map] at h
  rcases List.mem_flatten.mp h with ⟨l, hl, hinf⟩
  rcases List.mem_map.mp hl with ⟨ds, hds, rfl⟩
  exact ⟨ds, hds, hinf⟩

/-! ### Claim theorems -/

/-- C9: construction of an `ArticleNumber` succeeds exactly on the values in
`[1, 29]` and fails with a validation error on every value outside that
range. -/
theorem articleNumber_construction_range :
    ∀ value : Int, (mkArticleNumber value).isOk = true ↔ 1 ≤ value ∧ value ≤ 29 := by
  intro v
  unfold mkArticleNumber
  split
  · rename_i h
    simp only [Except.isOk, Except.toBool, Bool.false_eq_true, false_iff]
    omega
  · rename_i h
    push_neg at h
    simp only [Except.isOk, Except.toBool, true_iff]
    omega

/-- C2 (evaluation of the code at the failing input): on the boundary
split-break day of the repository's own test
`accepts a compliant schedule that hits the 4.5h boundary with a split break`
— drive 16200s (exactly the maximum), break 900s (first split part), drive
1800s, break 1800s (second split part), drive 3600s — the checker emits one
excessive-driving infringement at index 2, because the first split part does
not reset the driving-time accumulator.  The test (and the claim) expect zero
infringements. -/
theorem split_boundary_day_evaluation :
    check { maxDrivingDurationSec := 16200, singleBreakDurationSec := 2700,
            splitBreakDurations := (900, 1800) }
      [{ day := "2026-02-01",
         slotsSequence := [⟨.drive, 16200⟩, ⟨.«break», 900⟩, ⟨.drive, 1800⟩,
           ⟨.«break», 1800⟩, ⟨.drive, 3600⟩] }] =
      [{ articleNumber := { value := 7 }
         brokenRule := "Driver did not take a break: drive time without a break 18000"
         day := "2026-02-01"
         offendingSlotIndex := 2 }] := by
  rfl

/-- C1: at a `drive` slot at index `i`, the accumulated driving time grows by
the slot's duration, and an excessive-driving infringement is emitted at `i`
exactly when, after the increase, it exceeds the maximum, none has been
reported since the last reset, `i` is not the last index, and the next slot is
not a rest; in particular a day whose single slot is an over-long drive yields
no infringement. -/
theorem drive_slot_accumulation_and_flagging :
    (∀ (chk : BreaksComplianceChecker) (schedule : DailySchedule) (i : Nat)
        (st : CheckerState) (slot : TimeSlot),
      schedule.slotsSequence[i]? = some slot → slot.slotType = .drive →
      ((stepSlot chk schedule i st).drivingTime = st.drivingTime + slot.durationSeconds ∧
        ((stepSlot chk schedule i st).infringements =
            st.infringements ++
              [{ articleNumber := getArticle
                 brokenRule := "Driver did not take a break: drive time without a break " ++
                   toString (st.drivingTime + slot.durationSeconds)
                 day := schedule.day
                 offendingSlotIndex := i }] ↔
          st.drivingTime + slot.durationSeconds > chk.maxDrivingDurationSec ∧
            st.infringementReported = false ∧ isLastSlot schedule i = false ∧
            nextSlotIsRest schedule i = false))) ∧
    (∀ (chk : BreaksComplianceChecker) (day : String) (d : Nat),
      d > chk.maxDrivingDurationSec →
      checkDailyCompliance chk
        { day := day, slotsSequence := [{ slotType := .drive, durationSeconds := d }] } = []) := by
  constructor
  · intro chk schedule i st slot hslot htype
    unfold stepSlot
    rw [hslot]
    rcases slot with ⟨ty, dur⟩
    cases htype
    simp only
    split
    · rename_i hcond
      exact ⟨rfl, ⟨fun _ => hcond, fun _ => rfl⟩⟩
    · rename_i hcond
      refine ⟨rfl, ⟨fun habs => ?_, fun hc => absurd hc hcond⟩⟩
      exfalso
      have hlen := congrArg List.length habs
      simp at hlen
  · intro chk day d hd
    simp [checkDailyCompliance, checkDailyLoop, stepSlot, CheckerState.init, isLastSlot]

/-- Witness for C1: with maximum 10, a first drive slot of 11 seconds followed
by another drive emits the infringement at index 0, and a day consisting of a
single 11-second drive slot yields no infringement. -/
theorem drive_slot_accumulation_and_flagging_witness :
    (({ day := "w1", slotsSequence := [⟨.drive, 11⟩, ⟨.drive, 1⟩] } :
        DailySchedule).slotsSequence[0]? = some ⟨.drive, 11⟩ ∧
      (TimeSlot.mk .drive 11).slotType = .drive ∧
      11 > (⟨10, 9, (4, 5)⟩ : BreaksComplianceChecker).maxDrivingDurationSec) ∧
    (stepSlot ⟨10, 9, (4, 5)⟩ { day := "w1", slotsSequence := [⟨.drive, 11⟩, ⟨.drive, 1⟩] } 0
        CheckerState.init).infringements =
      CheckerState.init.infringements ++
        [{ articleNumber := getArticle
           brokenRule := "Driver did not take a break: drive time without a break 11"
           day := "w1"
           offendingSlotIndex := 0 }] ∧
    checkDailyCompliance ⟨10, 9, (4, 5)⟩
      { day := "w2", slotsSequence := [{ slotType := .drive, durationSeconds := 11 }] } = [] := by
  refine ⟨⟨rfl, rfl, by decide⟩, ?_, ?_⟩
  · exact ((drive_slot_accumulation_and_flagging.1 ⟨10, 9, (4, 5)⟩
      { day := "w1", slotsSequence := [⟨.drive, 11⟩, ⟨.drive, 1⟩] } 0
      CheckerState.init ⟨.drive, 11⟩ rfl rfl).2).mpr (by decide)
  · exact drive_slot_accumulation_and_flagging.2 ⟨10, 9, (4, 5)⟩ "w2" 11 (by decide)

/-- C3: at a `break` slot shorter than the single-break duration while a split
break is in progress, driving time is reset to 0 whether or not the slot
reaches the second split part; an infringement mentioning the 2nd break
duration is emitted exactly in the insufficient case; and both the split flag
and the reported flag are cleared. -/
theorem second_split_part_recovery :
    ∀ (chk : BreaksComplianceChecker) (schedule : DailySchedule) (i : Nat)
      (st : CheckerState) (slot : TimeSlot),
      schedule.slotsSequence[i]? = some slot → slot.slotType = .«break» →
      slot.durationSeconds < chk.singleBreakDurationSec → st.takingSplitBreak = true →
      ((stepSlot chk schedule i st).drivingTime = 0 ∧
        (stepSlot chk schedule i st).takingSplitBreak = false ∧
        (stepSlot chk schedule i st).infringementReported = false ∧
        (chk.splitBreakDurations.2 ≤ slot.durationSeconds →
          (stepSlot chk schedule i st).infringements = st.infringements) ∧
        (slot.durationSeconds < chk.splitBreakDurations.2 →
          (stepSlot chk schedule i st).infringements =
            st.infringements ++
              [{ articleNumber := getArticle
                 brokenRule := "Driver took an insufficient split break: 2nd break duration " ++
                   toString slot.durationSeconds
                 day := schedule.day
                 offendingSlotIndex := i }])) := by
  intro chk schedule i st slot hslot htype hlt hsplit
  unfold stepSlot
  rw [hslot]
  rcases slot with ⟨ty, dur⟩
  cases htype
  simp only at hlt ⊢
  rw [if_neg (by omega), hsplit, if_neg (by simp)]
  split
  · rename_i hge
    exact ⟨rfl, rfl, rfl, fun _ => rfl, fun hlt2 => absurd hge (by omega)⟩
  · rename_i hge
    push_neg at hge
    exact ⟨rfl, rfl, rfl, fun h2 => absurd h2 (by omega), fun _ => rfl⟩

/-- Witness for C3: a 3-second break while mid-split (second part requires 5)
emits the 2nd-break infringement and resets the state. -/
theorem second_split_part_recovery_witness :
    (({ day := "w3", slotsSequence := [⟨.«break», 3⟩] } :
        DailySchedule).slotsSequence[0]? = some ⟨.«break», 3⟩ ∧
      (3 : Nat) < 9 ∧
      ({ takingSplitBreak := true } : CheckerState).takingSplitBreak = true) ∧
    ((stepSlot ⟨10, 9, (4, 5)⟩ { day := "w3", slotsSequence := [⟨.«break», 3⟩] } 0
        { takingSplitBreak := true }).drivingTime = 0 ∧
      (stepSlot ⟨10, 9, (4, 5)⟩ { day := "w3", slotsSequence := [⟨.«break», 3⟩] } 0
        { takingSplitBreak := true }).takingSplitBreak = false ∧
      (stepSlot ⟨10, 9, (4, 5)⟩ { day := "w3", slotsSequence := [⟨.«break», 3⟩] } 0
        { takingSplitBreak := true }).infringementReported = false ∧
      ((5 : Nat) ≤ 3 →
        (stepSlot ⟨10, 9, (4, 5)⟩ { day := "w3", slotsSequence := [⟨.«break», 3⟩] } 0
          { takingSplitBreak := true }).infringements =
            ({ takingSplitBreak := true } : CheckerState).infringements) ∧
      ((3 : Nat) < 5 →
        (stepSlot ⟨10, 9, (4, 5)⟩ { day := "w3", slotsSequence := [⟨.«break», 3⟩] } 0
          { takingSplitBreak := true }).infringements =
            ({ takingSplitBreak := true } : CheckerState).infringements ++
              [{ articleNumber := getArticle
                 brokenRule := "Driver took an insufficient split break: 2nd break duration 3"
                 day := "w3"
                 offendingSlotIndex := 0 }])) := by
  refine ⟨⟨rfl, by decide, rfl⟩, ?_⟩
  exact second_split_part_recovery ⟨10, 9, (4, 5)⟩
    { day := "w3", slotsSequence := [⟨.«break», 3⟩] } 0 { takingSplitBreak := true }
    ⟨.«break», 3⟩ rfl rfl (by decide) rfl

/-- Inside the scan (index in bounds) the defensive step agrees with the
total step: the look-ahead read is reached only when the current slot is not
the last one, so it is in bounds too. -/
theorem stepSlotE_ok (chk : BreaksComplianceChecker) (schedule : DailySchedule) (i : Nat)
    (st : CheckerState) (hi : i < schedule.slotsSequence.length) :
    stepSlotE chk schedule i st = .ok (stepSlot chk schedule i st) := by
  rcases h : schedule.slotsSequence[i]? with _ | slot
  · exact absurd (List.getElem?_eq_none_iff.mp h) (by omega)
  · rcases slot with ⟨ty, dur⟩
    cases ty
    case drive =>
      by_cases hC : isLastSlot schedule i = false
      · have hlt : i + 1 < schedule.slotsSequence.length := by
          simp only [isLastSlot, beq_eq_false_iff_ne, ne_eq] at hC
          omega
        have hnext := List.getElem?_eq_getElem hlt
        by_cases hA : chk.maxDrivingDurationSec < st.drivingTime + dur
        · by_cases hB : st.infringementReported = false
          · by_cases hD : (schedule.slotsSequence[i + 1]).slotType = .rest
            · simp [stepSlotE, stepSlot, h, hnext, nextSlotIsRest, hA, hB, hC, hD]
            · simp [stepSlotE, stepSlot, h, hnext, nextSlotIsRest, hA, hB, hC, hD,
                beq_eq_false_iff_ne]
          · simp [stepSlotE, stepSlot, h, hA, hB, hC]
        · simp [stepSlotE, stepSlot, h, hA, hC]
      · have hC' : isLastSlot schedule i = true := by
          revert hC; cases isLastSlot schedule i <;> simp
        simp [stepSlotE, stepSlot, h, hC']
    case wait => simp [stepSlotE, h]
    case serviceCustomer => simp [stepSlotE, h]
    case otherWork => simp [stepSlotE, h]
    case «break» => simp [stepSlotE, h]
    case rest => simp [stepSlotE, h]

/-- The defensive scan loop never errors while the remaining iteration count
fits inside the slot sequence. -/
theorem checkDailyLoopE_ok (chk : BreaksComplianceChecker) (schedule : DailySchedule) :
    ∀ (n i : Nat) (st : CheckerState), i + n ≤ schedule.slotsSequence.length →
      checkDailyLoopE chk schedule n i st = .ok (checkDailyLoop chk schedule n i st) := by
  intro n
  induction n with
  | zero => intro i st _; rfl
  | succ n ih =>
    intro i st h
    have hi : i < schedule.slotsSequence.length := by omega
    simp only [checkDailyLoopE, checkDailyLoop, stepSlotE_ok chk schedule i st hi]
    exact ih (i + 1) (stepSlot chk schedule i st) (by omega)

/-- The defensive per-day check never errors. -/
theorem checkDailyComplianceE_ok (chk : BreaksComplianceChecker) (schedule : DailySchedule) :
    checkDailyComplianceE chk schedule = .ok (checkDailyCompliance chk schedule) := by
  unfold checkDailyComplianceE checkDailyCompliance
  rw [checkDailyLoopE_ok chk schedule schedule.slotsSequence.length 0 CheckerState.init
    (by omega)]
  rfl

/-- C7: on every structurally valid horizon schedule the checker never
raises: the defensive evaluator, in which every slot access (including the
look-ahead at `i + 1`) can fail, always returns `ok` with exactly the result
of the total evaluator. -/
theorem check_never_raises :
    ∀ (chk : BreaksComplianceChecker) (schedule : HorizonSchedule),
      checkE chk schedule = .ok (check chk schedule) := by
  intro chk schedule
  unfold checkE check
  suffices h : ∀ acc : List Infringement,
      List.foldl
        (fun (acc2 : Except String (List Infringement)) ds =>
          match acc2 with
          | Except.error e => Except.error e
          | Except.ok infringements =>
            Except.map (fun l => infringements ++ l) (checkDailyComplianceE chk ds))
        (Except.ok acc) schedule =
      Except.ok (List.foldl
        (fun infringements ds => infringements ++ checkDailyCompliance chk ds) acc schedule) by
    exact h []
  induction schedule with
  | nil => intro acc; rfl
  | cons d rest ih =>
    intro acc
    simp only [List.foldl_cons, checkDailyComplianceE_ok chk d, Except.map]
    exact ih (acc ++ checkDailyCompliance chk d)

/-- The first component of the threaded-state run is the pure result,
whatever state the instance field held on entry. -/
theorem checkMGo_fst (chk : BreaksComplianceChecker) :
    ∀ (l : HorizonSchedule) (acc : List Infringement) (st : CheckerState),
      (checkMGo chk l (acc, st)).1 = acc ++ (l.map (checkDailyCompliance chk)).flatten := by
  intro l
  induction l with
  | nil => intro acc st; simp [checkMGo]
  | cons ds rest ih =>
    intro acc st
    simp only [checkMGo]
    rw [ih]
    simp [checkDailyComplianceM, checkDailyCompliance, List.append_assoc]

/-- C8: for a fixed checker, `check` is pure with respect to its input: the
result on a schedule is the pure function `check` of that schedule regardless
of the value the mutable `state` field holds when the call starts (the
per-day state is freshly initialised), so a repeated sequential call — one
starting from the field value the first call left behind — returns the
identical infringement sequence. -/
theorem check_pure_across_calls :
    ∀ (chk : BreaksComplianceChecker) (state1 state2 : CheckerState)
      (schedule : HorizonSchedule),
      (checkM chk state1 schedule).1 = check chk schedule ∧
      (checkM chk (checkM chk state1 schedule).2 schedule).1 = (checkM chk state2 schedule).1 := by
  intro chk st1 st2 schedule
  constructor
  · rw [check_eq_flatten_map]
    simp [checkM, checkMGo_fst]
  · simp [checkM, checkMGo_fst]

/-- C5: every infringement `check` emits points into the daily schedule it
came from: some day of the horizon carries its `day` label and its
`offendingSlotIndex` is an in-bounds, zero-based index into that day's slot
sequence. -/
theorem infringement_indices_in_bounds :
    ∀ (chk : BreaksComplianceChecker) (schedule : HorizonSchedule) (inf : Infringement),
      inf ∈ check chk schedule →
      ∃ ds ∈ schedule, inf.day = ds.day ∧ inf.offendingSlotIndex < ds.slotsSequence.length := by
  intro chk schedule inf h
  rcases check_mem chk schedule inf h with ⟨ds, hds, hmem⟩
  rcases checkDailyCompliance_mem chk ds inf hmem with ⟨_, hday, hidx⟩
  exact ⟨ds, hds, hday, hidx⟩

/-- Witness for C5: the excessive-driving infringement of a two-slot day is
in the output and points at slot 0 of that day. -/
theorem infringement_indices_in_bounds_witness :
    ({ articleNumber := ⟨7⟩
       brokenRule := "Driver did not take a break: drive time without a break 11"
       day := "d1"
       offendingSlotIndex := 0 } : Infringement) ∈
      check ⟨10, 9, (4, 5)⟩ [{ day := "d1", slotsSequence := [⟨.drive, 11⟩, ⟨.drive, 1⟩] }] ∧
    ∃ ds ∈ ([{ day := "d1", slotsSequence := [⟨.drive, 11⟩, ⟨.drive, 1⟩] }] : HorizonSchedule),
      ({ articleNumber := ⟨7⟩
         brokenRule := "Driver did not take a break: drive time without a break 11"
         day := "d1"
         offendingSlotIndex := 0 } : Infringement).day = ds.day ∧
      ({ articleNumber := ⟨7⟩
         brokenRule := "Driver did not take a break: drive time without a break 11"
         day := "d1"
         offendingSlotIndex := 0 } : Infringement).offendingSlotIndex < ds.slotsSequence.length := by
  refine ⟨by decide, ?_⟩
  exact infringement_indices_in_bounds ⟨10, 9, (4, 5)⟩
    [{ day := "d1", slotsSequence := [⟨.drive, 11⟩, ⟨.drive, 1⟩] }] _ (by decide)

/-- C6: the result of `check` is the concatenation, in schedule (day) order,
of the per-day infringement lists, and each per-day list is ordered by
strictly increasing offending slot index (so a compliant day contributes
nothing and nothing is deduplicated across slots or days). -/
theorem check_output_ordering :
    ∀ (chk : BreaksComplianceChecker) (schedule : HorizonSchedule),
      check chk schedule = (schedule.map (checkDailyCompliance chk)).flatten ∧
      ∀ ds : DailySchedule,
        (checkDailyCompliance chk ds).Pairwise
          (fun a b => a.offendingSlotIndex < b.offendingSlotIndex) := by
  intro chk schedule
  exact ⟨check_eq_flatten_map chk schedule, fun ds => checkDailyCompliance_pairwise chk ds⟩

/-- C10: every infringement returned by `check` carries the article produced
by `getArticle`, which is article 7, whichever rule emitted it. -/
theorem infringements_carry_article_seven :
    ∀ (chk : BreaksComplianceChecker) (schedule : HorizonSchedule) (inf : Infringement),
      inf ∈ check chk schedule →
      inf.articleNumber = getArticle ∧ getArticle = { value := 7 } := by
  intro chk schedule inf h
  rcases check_mem chk schedule inf h with ⟨ds, _, hmem⟩
  exact ⟨(checkDailyCompliance_mem chk ds inf hmem).1, rfl⟩

/-- Witness for C10: a split-break infringement of a concrete schedule
carries article 7. -/
theorem infringements_carry_article_seven_witness :
    ({ articleNumber := ⟨7⟩
       brokenRule := "Driver took an insufficient split break: 1st break duration 2"
       day := "x"
       offendingSlotIndex := 0 } : Infringement) ∈
      check ⟨10, 9, (4, 5)⟩ [{ day := "x", slotsSequence := [⟨.«break», 2⟩] }] ∧
    ({ articleNumber := ⟨7⟩
       brokenRule := "Driver took an insufficient split break: 1st break duration 2"
       day := "x"
       offendingSlotIndex := 0 } : Infringement).articleNumber = getArticle ∧
    getArticle = { value := 7 } := by
  refine ⟨by decide, ?_⟩
  exact infringements_carry_article_seven ⟨10, 9, (4, 5)⟩
    [{ day := "x", slotsSequence := [⟨.«break», 2⟩] }] _ (by decide)

/-- A duration passes `isValidDuration` exactly when it is an integer (as a
rational: denominator 1), strictly positive, and at most 36000 seconds. -/
theorem isValidDuration_isOk (d : ℚ) :
    (isValidDuration d).isOk = true ↔ d.den = 1 ∧ 0 < d ∧ d ≤ 36000 := by
  unfold isValidDuration
  by_cases h1 : d.den = 1
  · rw [if_neg (not_not_intro h1)]
    by_cases h2 : d ≤ 0 ∨ d > 10 * 3600
    · rw [if_pos h2]
      simp only [Except.isOk, Except.toBool, Bool.false_eq_true, false_iff]
      rintro ⟨_, hpos, hle⟩
      rcases h2 with h | h
      · exact absurd hpos (not_lt.mpr h)
      · norm_num at h
        exact absurd hle (not_le.mpr h)
    · rw [if_neg h2]
      push_neg at h2
      simp only [Except.isOk, Except.toBool, true_iff]
      refine ⟨h1, h2.1, ?_⟩
      have h3 := h2.2
      norm_num at h3
      exact h3
  · rw [if_pos h1]
    simp only [Except.isOk, Except.toBool, Bool.false_eq_true, false_iff]
    tauto

/-- C4: construction of the checker succeeds exactly when every supplied
duration is an integer, strictly positive, and at most 10 hours (36000
seconds), the split parts sum to the single-break duration, and the first
split part is at most the second; it fails (raises) in every other case. -/
theorem constructor_success_characterisation :
    ∀ (maxDrivingDurationSec singleBreakDurationSec : ℚ) (splitBreakDurations : ℚ × ℚ),
      (mkBreaksComplianceChecker maxDrivingDurationSec singleBreakDurationSec
          splitBreakDurations).isOk = true ↔
        ((maxDrivingDurationSec.den = 1 ∧ 0 < maxDrivingDurationSec ∧
            maxDrivingDurationSec ≤ 36000) ∧
         (singleBreakDurationSec.den = 1 ∧ 0 < singleBreakDurationSec ∧
            singleBreakDurationSec ≤ 36000) ∧
         (splitBreakDurations.1.den = 1 ∧ 0 < splitBreakDurations.1 ∧
            splitBreakDurations.1 ≤ 36000) ∧
         (splitBreakDurations.2.den = 1 ∧ 0 < splitBreakDurations.2 ∧
            splitBreakDurations.2 ≤ 36000) ∧
         splitBreakDurations.1 + splitBreakDurations.2 = singleBreakDurationSec ∧
         splitBreakDurations.1 ≤ splitBreakDurations.2) := by
  intro maxD sb split
  unfold mkBreaksComplianceChecker
  rcases hm : isValidDuration maxD with e | u
  · have hmv := isValidDuration_isOk maxD
    rw [hm] at hmv
    simp only [Except.isOk, Except.toBool, Bool.false_eq_true, false_iff] at hmv ⊢
    tauto
  · have hmv := (isValidDuration_isOk maxD).mp (by rw [hm]; rfl)
    rcases hs : isValidDuration sb with e | u
    · have hsv := isValidDuration_isOk sb
      rw [hs] at hsv
      simp only [Except.isOk, Except.toBool, Bool.false_eq_true, false_iff] at hsv ⊢
      tauto
    · have hsv := (isValidDuration_isOk sb).mp (by rw [hs]; rfl)
      rcases hf : isValidDuration split.1 with e | u
      · have hfv := isValidDuration_isOk split.1
        rw [hf] at hfv
        simp only [Except.isOk, Except.toBool, Bool.false_eq_true, false_iff] at hfv ⊢
        tauto
      · have hfv := (isValidDuration_isOk split.1).mp (by rw [hf]; rfl)
        rcases hp : isValidDuration split.2 with e | u
        · have hpv := isValidDuration_isOk split.2
          rw [hp] at hpv
          simp only [Except.isOk, Except.toBool, Bool.false_eq_true, false_iff] at hpv ⊢
          tauto
        · have hpv := (isValidDuration_isOk split.2).mp (by rw [hp]; rfl)
          split_ifs with h5 h6
          · simp only [Except.isOk, Except.toBool, Bool.false_eq_true, false_iff]
            rintro ⟨_, _, _, _, heq, _⟩
            exact h5 heq.symm
          · simp only [Except.isOk, Except.toBool, Bool.false_eq_true, false_iff]
            rintro ⟨_, _, _, _, _, hle⟩
            exact absurd hle (not_le.mpr h6)
          · push_neg at h5 h6
            simp only [Except.isOk, Except.toBool, true_iff]
            exact ⟨hmv, hsv, hfv, hpv, h5.symm, h6⟩

end DriverBreaks
